import Mathlib

/-!
Shallow embedding of `mlpf/tfmodel/model.py` (particleflow).

Tensors are modelled as functions `Fin n → ...` over exact rationals (for the
combinatorial / arithmetic parts of the code) or reals (for the parts built
from `exp`, `sigmoid`, `softmax`).  TF ops are modelled one at a time:
`tf.argmax` as first index of the maximum, `tf.argsort` as a stable sort of
indices, `tf.gather` as function composition, `tf.scatter_nd` as an indicator
sum (duplicate indices add, missing indices give zero), `tf.one_hot` with the
out-of-range-gives-zeros semantics, `tf.nn.top_k` as sort-descending-then-take,
`tf.clip_by_value lo hi` as `min (max x lo) hi`.
-/

/-- Model of `tf.argmax` over the last axis: the first index attaining the
maximum of the list (0 for the empty list, which TF rejects). -/
def argmaxList (l : List ℚ) : ℕ :=
  match l.max? with
  | none => 0
  | some m => l.indexOf m

/-- Model of `tf.argsort` (ascending) on a vector of integer keys: a stable
sort of the index list `0..n-1` by key.  Any underlying sorting algorithm
yields a permutation of the indices; we fix the stable order (ties broken by
original index) for definiteness. -/
def argsortFin (n : ℕ) (key : Fin n → ℕ) : List (Fin n) :=
  (List.finRange n).mergeSort
    (fun i j => decide (key i < key j ∨ (key i = key j ∧ i.val ≤ j.val)))

/-- Model of `tf.reshape (n,) -> (nbins, bin_size)` on a flat list: cut the
list into `nbins` consecutive chunks of length `binSize`. -/
def toBins {α : Type} (binSize : ℕ) : ℕ → List α → List (List α)
  | 0, _ => []
  | nbins + 1, l => l.take binSize :: toBins binSize nbins (l.drop binSize)

/-- `split_indices_to_bins(cmul, nbins, bin_size)` (model.py:15-18), sparse
variant: `bin_idx = argmax(cmul, axis=-1)`, then
`bins_split = reshape(argsort(bin_idx), (nbins, bin_size))`.
The element count is `nbins * binSize` (the code requires exact
divisibility for the reshape). -/
def split_indices_to_bins (nbins binSize : ℕ)
    (cmul : Fin (nbins * binSize) → List ℚ) : List (List (Fin (nbins * binSize))) :=
  toBins binSize nbins (argsortFin (nbins * binSize) (fun i => argmaxList (cmul i)))

/-- The per-element bin index of the dense (batched, masked) variant
(model.py:21): `argmax(cmul, axis=-1) + where(~msk, nbins-1, 0)`. -/
def bin_idx_batch (nbins : ℕ) {n : ℕ} (cmul : Fin n → List ℚ) (msk : Fin n → Bool) :
    Fin n → ℕ :=
  fun i => argmaxList (cmul i) + (if msk i then 0 else nbins - 1)

/-- `split_indices_to_bins_batch(cmul, nbins, bin_size, msk)` (model.py:20-23),
one batch entry at a time: `argsort` acts row-wise on the last axis and the
reshape to `(nbins, bin_size)` is per batch entry. -/
def split_indices_to_bins_batch (nbins binSize : ℕ) {B : ℕ}
    (cmul : Fin B → Fin (nbins * binSize) → List ℚ)
    (msk : Fin B → Fin (nbins * binSize) → Bool) :
    Fin B → List (List (Fin (nbins * binSize))) :=
  fun b => toBins binSize nbins
    (argsortFin (nbins * binSize) (bin_idx_batch nbins (cmul b) (msk b)))

/-- Model of `tf.gather(X, bins_split, batch_dims=1)` with the
`(nbins, bin_size)` bin axes flattened back to one axis of length `n`
(exactly what `reverse_lsh` later does with its reshapes):
`out[b, j, f] = X[b, bins[b, j], f]`. -/
def tf_gather_batch {B n F : ℕ} (X : Fin B → Fin n → Fin F → ℚ)
    (bins : Fin B → Fin n → Fin n) : Fin B → Fin n → Fin F → ℚ :=
  fun b j f => X b (bins b j) f

/-- `reverse_lsh(bins_split, points_binned_enc)` (model.py:83-106): flatten the
bin axes and `tf.scatter_nd` the binned rows back to positions given by
`bins_split`.  `tf.scatter_nd` sums contributions of duplicate indices and
leaves unwritten positions at zero, which the indicator sum reproduces. -/
def reverse_lsh {B n F : ℕ} (bins : Fin B → Fin n → Fin n)
    (points : Fin B → Fin n → Fin F → ℚ) : Fin B → Fin n → Fin F → ℚ :=
  fun b i f => ∑ j : Fin n, if bins b j = i then points b j f else 0

/-- Model of `tf.nn.top_k(row, k)` on one row of the bin-local similarity
matrix (model.py:372): indices of the `k` largest entries, in value-descending
order, ties broken by the smaller index first. -/
def tf_top_k {m : ℕ} (k : ℕ) (v : Fin m → ℚ) : List (Fin m) :=
  ((List.finRange m).mergeSort
    (fun i j => decide (v j < v i ∨ (v i = v j ∧ i.val ≤ j.val)))).take k

/-- The similarity values attached, in rank order, to the neighbour edges that
`subpoints_to_sparse_matrix` emits for one source element
(`top_k.values` reshaped in model.py:373, paired with the gathered
destination indices). -/
def topk_edge_vals {m : ℕ} (k : ℕ) (v : Fin m → ℚ) : List ℚ :=
  (tf_top_k k v).map v

/-- Model of `tf.cast(x, tf.int32)` on a rational: truncation toward zero. -/
def truncToInt (q : ℚ) : ℤ := if 0 ≤ q then ⌊q⌋ else ⌈q⌉

/-- Model of `tf.one_hot(idx, depth)`: a row of length `depth` with a single
one at position `idx` when `0 ≤ idx < depth`, and all zeros when `idx` is out
of range (the TF-documented behaviour, no error). -/
def tf_one_hot (depth : ℕ) (idx : ℤ) : List ℚ :=
  (List.range depth).map (fun (j : ℕ) => if idx = (j : ℤ) then 1 else 0)

/-- `InputEncoding.call` (model.py:117-124) on the feature row of one element:
one-hot the truncated categorical feature 0 into `num_input_classes` slots and
concatenate the remaining features `X[1:]` unchanged. -/
def InputEncoding_call (numInputClasses : ℕ) (row : List ℚ) : List ℚ :=
  tf_one_hot numInputClasses (truncToInt row.headI) ++ row.tail

/-- The convolution layer classes known to `get_conv_layer` (model.py:275-278). -/
inductive ConvLayerKind : Type
  | mpnnNodeFunction : ConvLayerKind
  | ghconvDense : ConvLayerKind
deriving DecidableEq

/-- `get_conv_layer(config_dict)` (model.py:272-281): a Python dict lookup of
the "type" key; an unknown type raises `KeyError` before any layer is built,
modelled as `Except.error`. -/
def get_conv_layer (ty : String) : Except String ConvLayerKind :=
  if ty = "MPNNNodeFunction" then Except.ok ConvLayerKind.mpnnNodeFunction
  else if ty = "GHConvDense" then Except.ok ConvLayerKind.ghconvDense
  else Except.error ty

/-- `GraphBuilderDense.__init__` (model.py:423-437): the kernel string is
tested by `if kernel == "learnable": ... elif kernel == "gaussian": pass` with
no `else` branch, so construction always succeeds; the boolean records whether
the learnable-kernel feed-forward net `ffn_dist` was created. -/
def GraphBuilderDense_init (kernel : String) : Except String Bool :=
  if kernel = "learnable" then Except.ok true
  else if kernel = "gaussian" then Except.ok false
  else Except.ok false

/-- The two similarity-kernel computations of `GraphBuilderDense.call`
(model.py:467-473). -/
inductive DmKernel : Type
  | learnableElu : DmKernel
  | gaussianClip : DmKernel
deriving DecidableEq

/-- The kernel dispatch inside `GraphBuilderDense.call` (model.py:467-477):
for an unknown kernel neither branch assigns `dm`, and the following `einsum`
on `dm` raises (`UnboundLocalError`) at the first forward pass. -/
def GraphBuilderDense_call_dm (kernel : String) : Except String DmKernel :=
  if kernel = "learnable" then Except.ok DmKernel.learnableElu
  else if kernel = "gaussian" then Except.ok DmKernel.gaussianClip
  else Except.error "local variable dm referenced before assignment"

/-- Model of `tf.reduce_mean` over an axis of length `m`. -/
def tf_reduce_mean (m : ℕ) (t : Fin m → ℚ) : ℚ := (∑ j, t j) / m

/-- `avg_message = tf.reduce_mean(adj, axis=-2)` in `MPNNNodeFunction.call`
(model.py:259): the mean over the neighbour axis of the adjacency tensor per-pair
edge-feature vectors (`adj[i, j, c]`, `e` edge features per pair). -/
def mpnn_avg_message {n e : ℕ} (adj : Fin n → Fin n → Fin e → ℚ) :
    Fin n → Fin e → ℚ :=
  fun i c => tf_reduce_mean n (fun j => adj i j c)

/-- `MPNNNodeFunction.call` (model.py:257-261): concatenate the own
features with `avg_message`, multiply by the mask, and apply the feed-forward
stack `ffn`. -/
def MPNNNodeFunction_call {n d e o : ℕ} (x : Fin n → Fin d → ℚ)
    (adj : Fin n → Fin n → Fin e → ℚ) (msk : Fin n → ℚ)
    (ffn : (Fin (d + e) → ℚ) → Fin o → ℚ) : Fin n → Fin o → ℚ :=
  fun i => ffn (fun k => Fin.append (x i) (mpnn_avg_message adj i) k * msk i)

/-- Modelled from the claim wording, for the refinement check of C8: the node
function is said to average the incoming adjacency-weighted messages, i.e. the
neighbour feature vectors `x[j]` weighted by the scalar adjacency entries
`adjS[i, j]`, and to feed `concat(x[i], averaged message) * msk` through the
feed-forward stack. -/
def mpnn_spec_weighted {n d o : ℕ} (x : Fin n → Fin d → ℚ)
    (adjS : Fin n → Fin n → ℚ) (msk : Fin n → ℚ)
    (ffn : (Fin (d + d) → ℚ) → Fin o → ℚ) : Fin n → Fin o → ℚ :=
  fun i => ffn (fun k =>
    Fin.append (x i) (fun c => (∑ j, adjS i j * x j c) / n) k * msk i)

/-- The mask application of the dense builder (model.py:476-477): the bin-local
similarity tensor is multiplied row-wise and column-wise by the binned mask. -/
def mask_dm {s e : ℕ} (dm : Fin s → Fin s → Fin e → ℚ) (mskf : Fin s → ℚ) :
    Fin s → Fin s → Fin e → ℚ :=
  fun i j c => dm i j c * mskf i * mskf j

/-- Helper: flattening the reshaped bins recovers a prefix of the flat list. -/
lemma flatten_toBins {α : Type} (s : ℕ) :
    ∀ (k : ℕ) (l : List α), (toBins s k l).flatten = l.take (k * s) := by
  intro k
  induction k with
  | zero => intro l; simp [toBins]
  | succ k ih =>
    intro l
    simp only [toBins, List.flatten_cons, ih]
    rw [show (k + 1) * s = s + k * s by ring, List.take_add]

/-- Helper: the modelled `tf.argsort` output has length `n`. -/
lemma length_argsortFin (n : ℕ) (key : Fin n → ℕ) : (argsortFin n key).length = n := by
  simp [argsortFin, List.length_mergeSort, List.length_finRange]

/-- Helper: the modelled `tf.argsort` output is a permutation of all indices. -/
lemma argsortFin_perm (n : ℕ) (key : Fin n → ℕ) :
    (argsortFin n key).Perm (List.finRange n) :=
  List.mergeSort_perm _ _

/-- C3: for an element count exactly `nbins * bin_size`, the `bins_split`
produced by `split_indices_to_bins` (sparse variant) and, per batch entry, by
`split_indices_to_bins_batch` (dense variant) is a permutation of the indices
`0..n_points-1`: the concatenation of the per-bin index lists is a permutation
of the full index list (no element repeated, none missing). -/
theorem split_indices_to_bins_is_permutation (nbins binSize : ℕ)
    (cmul : Fin (nbins * binSize) → List ℚ)
    (B : ℕ) (cmulB : Fin B → Fin (nbins * binSize) → List ℚ)
    (mskB : Fin B → Fin (nbins * binSize) → Bool) :
    ((split_indices_to_bins nbins binSize cmul).flatten).Perm
      (List.finRange (nbins * binSize)) ∧
    ∀ b, ((split_indices_to_bins_batch nbins binSize cmulB mskB b).flatten).Perm
      (List.finRange (nbins * binSize)) := by
  constructor
  · unfold split_indices_to_bins
    rw [flatten_toBins, List.take_of_length_le (le_of_eq (length_argsortFin _ _))]
    exact argsortFin_perm _ _
  · intro b
    unfold split_indices_to_bins_batch
    rw [flatten_toBins, List.take_of_length_le (le_of_eq (length_argsortFin _ _))]
    exact argsortFin_perm _ _

/-- C2: scattering the gathered rows back through a per-batch-entry bijective
`bins_split` is the identity: `reverse_lsh(bins, gather(X, bins)) = X`. -/
theorem reverse_lsh_gather_id {B n F : ℕ} (X : Fin B → Fin n → Fin F → ℚ)
    (bins : Fin B → Fin n → Fin n) (hb : ∀ b, Function.Bijective (bins b)) :
    reverse_lsh bins (tf_gather_batch X bins) = X := by
  funext b i f
  classical
  let e : Fin n ≃ Fin n := Equiv.ofBijective (bins b) (hb b)
  have hbe : ∀ j, bins b j = e j := fun j => rfl
  simp only [reverse_lsh, tf_gather_batch]
  have h1 : ∀ j : Fin n, (if bins b j = i then X b (bins b j) f else 0)
      = (if j = e.symm i then X b (bins b j) f else 0) := by
    intro j
    refine if_congr ?_ rfl rfl
    rw [hbe j]
    exact Equiv.apply_eq_iff_eq_symm_apply e
  rw [Finset.sum_congr rfl (fun j _ => h1 j),
    Finset.sum_ite_eq' Finset.univ (e.symm i)]
  simp only [Finset.mem_univ, if_true]
  rw [hbe, Equiv.apply_symm_apply]

def c2Bins : Fin 1 → Fin 2 → Fin 2 := fun _ j => Fin.rev j

def c2X : Fin 1 → Fin 2 → Fin 1 → ℚ := fun _ j _ => (j.val : ℚ) + 3

/-- Witness for C2 at a concrete batch of 2 elements and the swap permutation. -/
theorem reverse_lsh_gather_id_witness :
    (∀ b, Function.Bijective (c2Bins b)) ∧
    reverse_lsh c2Bins (tf_gather_batch c2X c2Bins) = c2X :=
  ⟨by decide, reverse_lsh_gather_id c2X c2Bins (by decide)⟩

def c4cmul : Fin 2 → List ℚ := fun i => if i = 0 then [0, 1] else [5, 0]

def c4msk : Fin 2 → Bool := fun i => decide (i = 0)

/-- C4 counterexample: with `nbins = 2`, a valid element whose hash argmax is
the last bucket (index 1) receives bin index 1, and a masked element whose
argmax is bucket 0 receives bin index `0 + (nbins - 1) = 1` as well: the bin
indices of masked and valid elements are not disjoint. -/
theorem bin_idx_batch_not_disjoint :
    c4msk 0 = true ∧ c4msk 1 = false ∧
    bin_idx_batch 2 c4cmul c4msk 1 = bin_idx_batch 2 c4cmul c4msk 0 := by
  decide

/-- Helper: the modelled `tf.argmax` of a nonempty list is a valid index. -/
lemma argmaxList_lt_length (l : List ℚ) (h : l ≠ []) : argmaxList l < l.length := by
  cases hmax : l.max? with
  | none => exact absurd (List.max?_eq_none_iff.mp hmax) h
  | some m =>
    have hm : m ∈ l := List.max?_mem max_choice hmax
    simp only [argmaxList, hmax]
    exact List.indexOf_lt_length.mpr hm

/-- C4 amended: masked elements need not land in a bin index disjoint from all
valid elements (see the counterexample), but they always sort after them: when
the hash-score width `w` is at most `nbins` (in the code `w = 2*(nbins//2)`),
every valid element has bin index at most `nbins - 1`, every masked element has
bin index at least `nbins - 1`, so each masked element has bin index at
least that of each valid element; exclusion from the valid computation is enforced
separately by zeroing the masked rows and columns of the similarity tensor. -/
theorem bin_idx_batch_ordering {n : ℕ} (w nbins : ℕ) (cmul : Fin n → List ℚ)
    (msk : Fin n → Bool) (hw : ∀ k, (cmul k).length = w) (hw1 : 1 ≤ w)
    (hwn : w ≤ nbins) (i j : Fin n) (hi : msk i = false) (hj : msk j = true) :
    bin_idx_batch nbins cmul msk j ≤ nbins - 1 ∧
    nbins - 1 ≤ bin_idx_batch nbins cmul msk i ∧
    bin_idx_batch nbins cmul msk j ≤ bin_idx_batch nbins cmul msk i ∧
    (∀ (s e : ℕ) (dm : Fin s → Fin s → Fin e → ℚ) (mskf : Fin s → ℚ)
      (a b : Fin s) (c : Fin e), mskf a = 0 →
      mask_dm dm mskf a b c = 0 ∧ mask_dm dm mskf b a c = 0) := by
  have hja : argmaxList (cmul j) < w := by
    rw [← hw j]
    exact argmaxList_lt_length _ (List.length_pos.mp (by rw [hw j]; omega))
  refine ⟨?_, ?_, ?_, fun s e dm mskf a b c ha =>
    ⟨by simp [mask_dm, ha], by simp [mask_dm, ha]⟩⟩ <;>
    (unfold bin_idx_batch
     simp only [hi, hj, Bool.false_eq_true, if_true, if_false]
     omega)

/-- Witness for the amended C4 at the counterexample scores: the valid element
0 has bin index 1 and the masked element 1 has bin index 1. -/
theorem bin_idx_batch_ordering_witness :
    (∀ k, (c4cmul k).length = 2) ∧
    bin_idx_batch 2 c4cmul c4msk 0 ≤ 2 - 1 ∧
    2 - 1 ≤ bin_idx_batch 2 c4cmul c4msk 1 ∧
    bin_idx_batch 2 c4cmul c4msk 0 ≤ bin_idx_batch 2 c4cmul c4msk 1 ∧
    @mask_dm 2 1 (fun _ _ _ => (1 : ℚ))
      (fun a : Fin 2 => if a = 0 then 1 else 0) 1 0 0 = 0 := by
  have h := bin_idx_batch_ordering 2 2 c4cmul c4msk (by decide) (by decide)
    (by decide) 1 0 (by decide) (by decide)
  exact ⟨by decide, h.1, h.2.1, h.2.2.1,
    (h.2.2.2 2 1 (fun _ _ _ => (1 : ℚ))
      (fun a : Fin 2 => if a = 0 then 1 else 0) 1 0 0 (by decide)).1⟩

/-- Helper: transitivity of the descending-value, index-tie-broken order used
to model `tf.nn.top_k`. -/
lemma topkRel_trans {m : ℕ} (v : Fin m → ℚ) :
    ∀ (a b c : Fin m),
      decide (v b < v a ∨ (v a = v b ∧ a.val ≤ b.val)) = true →
      decide (v c < v b ∨ (v b = v c ∧ b.val ≤ c.val)) = true →
      decide (v c < v a ∨ (v a = v c ∧ a.val ≤ c.val)) = true := by
  intro a b c hab hbc
  simp only [decide_eq_true_eq] at hab hbc ⊢
  rcases hab with h1 | h1 <;> rcases hbc with h2 | h2
  · exact Or.inl (h2.trans h1)
  · exact Or.inl (h2.1 ▸ h1)
  · exact Or.inl (by rw [h1.1]; exact h2)
  · exact Or.inr ⟨h1.1.trans h2.1, h1.2.trans h2.2⟩

/-- Helper: totality of the descending-value, index-tie-broken order used to
model `tf.nn.top_k`. -/
lemma topkRel_total {m : ℕ} (v : Fin m → ℚ) :
    ∀ (a b : Fin m),
      (decide (v b < v a ∨ (v a = v b ∧ a.val ≤ b.val)) ||
       decide (v a < v b ∨ (v b = v a ∧ b.val ≤ a.val))) = true := by
  intro a b
  simp only [Bool.or_eq_true, decide_eq_true_eq]
  rcases lt_trichotomy (v a) (v b) with h | h | h
  · exact Or.inr (Or.inl h)
  · rcases Nat.le_total a.val b.val with hi | hi
    · exact Or.inl (Or.inr ⟨h, hi⟩)
    · exact Or.inr (Or.inr ⟨h.symm, hi⟩)
  · exact Or.inl (Or.inl h)

/-- C5: the modelled `tf.nn.top_k` selection of `subpoints_to_sparse_matrix`
emits at most `num_neighbors` neighbour edges per source element, and the
emitted similarity values are monotonically non-increasing in rank order. -/
theorem tf_top_k_bounds {m : ℕ} (k : ℕ) (v : Fin m → ℚ) :
    (tf_top_k k v).length ≤ k ∧ (topk_edge_vals k v).Sorted (· ≥ ·) := by
  constructor
  · unfold tf_top_k
    rw [List.length_take]
    exact inf_le_left
  · have hs := List.sorted_mergeSort (topkRel_trans v) (topkRel_total v)
      (List.finRange m)
    have ht : (tf_top_k k v).Pairwise
        (fun i j => decide (v j < v i ∨ (v i = v j ∧ i.val ≤ j.val)) = true) :=
      List.Pairwise.sublist (List.take_sublist _ _) hs
    unfold topk_edge_vals
    refine List.Pairwise.map v ?_ ht
    intro a b h
    simp only [decide_eq_true_eq] at h
    rcases h with h | h
    · exact le_of_lt h
    · exact le_of_eq h.1.symm

def c8x : Fin 1 → Fin 1 → ℚ := fun _ _ => 2

def c8adj : Fin 1 → Fin 1 → Fin 1 → ℚ := fun _ _ _ => 1

def c8adjS : Fin 1 → Fin 1 → ℚ := fun _ _ => 1

def c8msk : Fin 1 → ℚ := fun _ => 1

def c8ffn : (Fin 2 → ℚ) → Fin 1 → ℚ := fun u _ => u 0 + u 1

/-- C8 counterexample: on a 1-node graph with self-feature 2, adjacency entry 1
and mask 1, the node function of the code (averaging the adjacency entries
themselves) produces 2 + 1 = 3, while the claimed adjacency-weighted message
average would produce 2 + (1 * 2) = 4. -/
theorem mpnn_call_ne_spec_weighted :
    MPNNNodeFunction_call c8x c8adj c8msk c8ffn 0 0 ≠
      mpnn_spec_weighted c8x c8adjS c8msk c8ffn 0 0 := by
  simp [MPNNNodeFunction_call, mpnn_spec_weighted, mpnn_avg_message,
    tf_reduce_mean, c8x, c8adj, c8adjS, c8msk, c8ffn, Fin.append, Fin.addCases]

/-- C8 amended: the node function averages the own entries of the adjacency tensor
over the neighbour axis — `n * avg_message[i, c] = ∑ j, adj[i, j, c]`, with no
weighting of the neighbour features — and feeds the mask-scaled concatenation
of the own features of the node with that average through the feed-forward stack. -/
theorem mpnn_avg_is_adjacency_mean {n d e o : ℕ} (x : Fin n → Fin d → ℚ)
    (adj : Fin n → Fin n → Fin e → ℚ) (msk : Fin n → ℚ)
    (ffn : (Fin (d + e) → ℚ) → Fin o → ℚ) (hn : 0 < n) (i : Fin n) :
    (∀ c, (n : ℚ) * mpnn_avg_message adj i c = ∑ j, adj i j c) ∧
    MPNNNodeFunction_call x adj msk ffn i =
      ffn (fun k => Fin.append (x i) (mpnn_avg_message adj i) k * msk i) := by
  refine ⟨fun c => ?_, rfl⟩
  unfold mpnn_avg_message tf_reduce_mean
  rw [mul_comm, div_mul_cancel₀]
  exact Nat.cast_ne_zero.mpr hn.ne'

/-- Witness for the amended C8 at the concrete 1-node instance. -/
theorem mpnn_avg_is_adjacency_mean_witness :
    (∀ c, ((1 : ℕ) : ℚ) * mpnn_avg_message c8adj 0 c = ∑ j, c8adj 0 j c) ∧
    MPNNNodeFunction_call c8x c8adj c8msk c8ffn 0 =
      c8ffn (fun k => Fin.append (c8x 0) (mpnn_avg_message c8adj 0) k * c8msk 0) :=
  mpnn_avg_is_adjacency_mean c8x c8adj c8msk c8ffn (by norm_num) 0

/-- C9 counterexample: an unknown graph kernel does not raise at
model-construction time — `GraphBuilderDense.__init__` has no `else` branch
and succeeds for any kernel string. -/
theorem graph_builder_init_accepts_unknown_kernel :
    "nonexistent" ≠ "learnable" ∧ "nonexistent" ≠ "gaussian" ∧
    GraphBuilderDense_init "nonexistent" = Except.ok false := by
  refine ⟨by decide, by decide, rfl⟩

/-- C9 amended: an unknown convolution type is fatal at model-construction
time (`KeyError` in `get_conv_layer`), while an unknown graph kernel is
accepted by `GraphBuilderDense.__init__` and only becomes fatal at the first
forward pass, when `GraphBuilderDense.call` reads the unassigned `dm`. -/
theorem unsupported_config_dispatch (ty kernel : String)
    (hty1 : ty ≠ "MPNNNodeFunction") (hty2 : ty ≠ "GHConvDense")
    (hk1 : kernel ≠ "learnable") (hk2 : kernel ≠ "gaussian") :
    get_conv_layer ty = Except.error ty ∧
    GraphBuilderDense_init kernel = Except.ok false ∧
    GraphBuilderDense_call_dm kernel =
      Except.error "local variable dm referenced before assignment" := by
  refine ⟨?_, ?_, ?_⟩ <;>
    simp [get_conv_layer, GraphBuilderDense_init, GraphBuilderDense_call_dm,
      hty1, hty2, hk1, hk2]

/-- Witness for the amended C9 at concrete unsupported configuration strings. -/
theorem unsupported_config_dispatch_witness :
    get_conv_layer "FooConv" = Except.error "FooConv" ∧
    GraphBuilderDense_init "sigmoid" = Except.ok false ∧
    GraphBuilderDense_call_dm "sigmoid" =
      Except.error "local variable dm referenced before assignment" :=
  unsupported_config_dispatch "FooConv" "sigmoid" (by decide) (by decide)
    (by decide) (by decide)

/-- C10: `InputEncoding.call` is total on the categorical type field: the
output row always has width `num_input_classes + (F - 1)`, and when the
truncated type index is negative or at least `num_input_classes` the one-hot
block is all zeros rather than an error. -/
theorem input_encoding_total (numClasses : ℕ) (row : List ℚ)
    (h : 1 ≤ row.length) :
    (InputEncoding_call numClasses row).length = numClasses + (row.length - 1) ∧
    ((truncToInt row.headI < 0 ∨ (numClasses : ℤ) ≤ truncToInt row.headI) →
      tf_one_hot numClasses (truncToInt row.headI) =
        List.replicate numClasses 0) := by
  constructor
  · unfold InputEncoding_call tf_one_hot
    rw [List.length_append, List.length_map, List.length_range, List.length_tail]
  · intro hout
    unfold tf_one_hot
    rw [List.eq_replicate_iff]
    refine ⟨by rw [List.length_map, List.length_range], ?_⟩
    intro b hb
    simp only [List.mem_map, List.mem_range] at hb
    obtain ⟨j, hj, rfl⟩ := hb
    have hne : truncToInt row.headI ≠ (j : ℤ) := by
      rcases hout with hlt | hge
      · intro heq
        rw [heq] at hlt
        omega
      · intro heq
        rw [heq] at hge
        omega
    simp [hne]

def c10row : List ℚ := [(-5 : ℚ)/2, 7]

/-- Witness for C10: a row whose type feature truncates to the out-of-range
index -2 yields an all-zero one-hot block and output width 3 + 1. -/
theorem input_encoding_total_witness :
    (InputEncoding_call 3 c10row).length = 3 + (c10row.length - 1) ∧
    tf_one_hot 3 (truncToInt c10row.headI) = List.replicate 3 0 :=
  ⟨(input_encoding_total 3 c10row (by decide)).1,
   (input_encoding_total 3 c10row (by decide)).2 (Or.inl (by
      have h : truncToInt c10row.headI = ⌈(-5 : ℚ)/2⌉ := by
        rw [show c10row.headI = (-5 : ℚ)/2 from rfl, truncToInt,
          if_neg (by norm_num)]
      rw [h]
      have h2 : ⌈(-5 : ℚ)/2⌉ ≤ -1 := Int.ceil_le.mpr (by norm_num)
      omega))⟩

/-- Model of `tf.clip_by_value(x, lo, hi)` over the reals. -/
noncomputable def clip_by_value (x lo hi : ℝ) : ℝ := min (max x lo) hi

/-- Model of `tf.nn.sigmoid` over the reals. -/
noncomputable def sigmoid (z : ℝ) : ℝ := 1 / (1 + Real.exp (-z))

/-- Model of `tf.nn.softmax` over the last axis. -/
noncomputable def softmax (C : ℕ) (v : Fin C → ℝ) : Fin C → ℝ :=
  fun c => Real.exp (v c) / ∑ b, Real.exp (v b)

/-- The inputs of `GHConvDense.call` (model.py:225-244): bin-local features
`x`, dense bin-local adjacency `adj`, float mask `msk`, the learned
weights, the configured nonlinearity, and the `normalize_degrees` flag. -/
structure GHConvDenseInputs (n d o : ℕ) where
  normalize_degrees : Bool
  activation : ℝ → ℝ
  W_t : Fin d → Fin o → ℝ
  b_t : Fin o → ℝ
  W_h : Fin d → Fin o → ℝ
  theta : Fin d → Fin o → ℝ
  x : Fin n → Fin d → ℝ
  adj : Fin n → Fin n → ℝ
  msk : Fin n → ℝ

/-- The gate of `GHConvDense.call` (model.py:241):
`sigmoid(x @ W_t + b_t)`. -/
noncomputable def ghconv_gate {n d o : ℕ} (P : GHConvDenseInputs n d o) :
    Fin n → Fin o → ℝ :=
  fun i c => sigmoid ((∑ k, P.x i k * P.W_t k c) + P.b_t c)

/-- The degree normalization of `GHConvDense.call` (model.py:228-232):
`(clip(sum |adj|, 0, 1000) + 1e-6) ^ (-0.5) * msk`. -/
noncomputable def ghconv_norm {n d o : ℕ} (P : GHConvDenseInputs n d o) :
    Fin n → ℝ :=
  fun i => (clip_by_value (∑ j, |P.adj i j|) 0 1000 + 1 / 1000000) ^
    (-(1 : ℝ) / 2) * P.msk i

/-- `f_hom` before adjacency propagation (model.py:234):
`matmul(x * msk, theta) * msk`. -/
noncomputable def ghconv_f_hom_base {n d o : ℕ} (P : GHConvDenseInputs n d o) :
    Fin n → Fin o → ℝ :=
  fun i c => (∑ k, (P.x i k * P.msk i) * P.theta k c) * P.msk i

/-- `f_hom` after adjacency propagation (model.py:235-238), with or without
degree normalization. -/
noncomputable def ghconv_f_hom {n d o : ℕ} (P : GHConvDenseInputs n d o) :
    Fin n → Fin o → ℝ :=
  fun i c =>
    if P.normalize_degrees then
      (∑ j, P.adj i j * (ghconv_f_hom_base P j c * ghconv_norm P j)) *
        ghconv_norm P i
    else
      ∑ j, P.adj i j * ghconv_f_hom_base P j c

/-- `f_het` (model.py:240): `matmul(x * msk, W_h)`. -/
noncomputable def ghconv_f_het {n d o : ℕ} (P : GHConvDenseInputs n d o) :
    Fin n → Fin o → ℝ :=
  fun i c => ∑ k, (P.x i k * P.msk i) * P.W_h k c

/-- `GHConvDense.call` output (model.py:243-244):
`activation(gate * f_hom + (1 - gate) * f_het) * msk`. -/
noncomputable def GHConvDense_call {n d o : ℕ} (P : GHConvDenseInputs n d o) :
    Fin n → Fin o → ℝ :=
  fun i c => P.activation (ghconv_gate P i c * ghconv_f_hom P i c +
    (1 - ghconv_gate P i c) * ghconv_f_het P i c) * P.msk i

/-- Helper: the sigmoid is strictly positive. -/
lemma sigmoid_pos (z : ℝ) : 0 < sigmoid z := by
  unfold sigmoid
  positivity

/-- Helper: the sigmoid is strictly below one. -/
lemma sigmoid_lt_one (z : ℝ) : sigmoid z < 1 := by
  unfold sigmoid
  rw [div_lt_one (by positivity)]
  linarith [Real.exp_pos (-z)]

/-- C7: in `GHConvDense.call`, the per-node gate lies strictly in the open
interval (0, 1) in every component, and the layer output at every node
whose mask entry is 0 is exactly zero. -/
theorem ghconv_gate_in_unit_interval_and_masked_zero {n d o : ℕ}
    (P : GHConvDenseInputs n d o) :
    (∀ i c, 0 < ghconv_gate P i c ∧ ghconv_gate P i c < 1) ∧
    (∀ i, P.msk i = 0 → ∀ c, GHConvDense_call P i c = 0) := by
  refine ⟨fun i c => ⟨sigmoid_pos _, sigmoid_lt_one _⟩, fun i hi c => ?_⟩
  unfold GHConvDense_call
  rw [hi, mul_zero]

/-- A concrete 1-node instance of the gated convolution with a masked node. -/
noncomputable def ghconvP0 : GHConvDenseInputs 1 1 1 where
  normalize_degrees := false
  activation := fun z => z
  W_t := fun _ _ => 0
  b_t := fun _ => 0
  W_h := fun _ _ => 0
  theta := fun _ _ => 0
  x := fun _ _ => 0
  adj := fun _ _ => 0
  msk := fun _ => 0

/-- Witness for C7 at the concrete masked 1-node instance. -/
theorem ghconv_gate_witness :
    ghconvP0.msk 0 = 0 ∧ GHConvDense_call ghconvP0 0 0 = 0 ∧
    0 < ghconv_gate ghconvP0 0 0 :=
  ⟨rfl, (ghconv_gate_in_unit_interval_and_masked_zero ghconvP0).2 0 rfl 0,
   ((ghconv_gate_in_unit_interval_and_masked_zero ghconvP0).1 0 0).1⟩

/-- The output stage of `PFNetDense.call` (model.py:812-898), abstracted over
everything upstream of the final heads: `X` is the raw input (feature 0 is the
categorical type), `dec_input_id` and `dec_input_reg` stand for the
concatenated decoder inputs (`dec_input_cls` / `dec_input_reg` before the mask
multiplication at model.py:852/876), and the `ffn_*` fields stand for the
trained feed-forward head networks applied per element.  `momentum_mult` is
the learned `momentum_multiplication` weight vector (model.py:886). -/
structure PFNetDenseStage (n F Dc Dr C : ℕ) where
  X : Fin n → Fin (F + 1) → ℝ
  ffn_id : (Fin Dc → ℝ) → Fin C → ℝ
  ffn_charge : (Fin Dc → ℝ) → ℝ
  ffn_momentum : Fin 5 → (Fin Dr → ℝ) → ℝ
  momentum_mult : Fin 5 → ℝ
  dec_input_id : Fin n → Fin Dc → ℝ
  dec_input_reg : Fin n → Fin Dr → ℝ

/-- `msk_input = expand_dims(cast(X[:, :, 0] != 0, float32), -1)`
(model.py:816-817). -/
noncomputable def msk_input {n F Dc Dr C : ℕ} (S : PFNetDenseStage n F Dc Dr C) :
    Fin n → ℝ :=
  fun i => if S.X i 0 = 0 then 0 else 1

/-- `dec_output_id = concat(dec_input_cls, -1) * msk_input` (model.py:852). -/
noncomputable def dec_output_id {n F Dc Dr C : ℕ} (S : PFNetDenseStage n F Dc Dr C) :
    Fin n → Fin Dc → ℝ :=
  fun i k => S.dec_input_id i k * msk_input S i

/-- `out_id_logits = ffn_id(dec_output_id) * msk_input` (model.py:856). -/
noncomputable def out_id_logits {n F Dc Dr C : ℕ} (S : PFNetDenseStage n F Dc Dr C) :
    Fin n → Fin C → ℝ :=
  fun i c => S.ffn_id (dec_output_id S i) c * msk_input S i

/-- `out_id_softmax = clip_by_value(softmax(out_id_logits), 0, 1)`
(model.py:861), the `cls` output of the non-focal-loss path. -/
noncomputable def out_id_softmax {n F Dc Dr C : ℕ} (S : PFNetDenseStage n F Dc Dr C) :
    Fin n → Fin C → ℝ :=
  fun i c => clip_by_value (softmax C (out_id_logits S i) c) 0 1

/-- `out_charge = clip_by_value(ffn_charge(dec_output_id) * msk_input, -2, 2)`
(model.py:863,888). -/
noncomputable def out_charge {n F Dc Dr C : ℕ} (S : PFNetDenseStage n F Dc Dr C) :
    Fin n → ℝ :=
  fun i => clip_by_value (S.ffn_charge (dec_output_id S i) * msk_input S i) (-2) 2

/-- `dec_output_reg = concat(dec_input_reg, -1) * msk_input` (model.py:876). -/
noncomputable def dec_output_reg {n F Dc Dr C : ℕ} (S : PFNetDenseStage n F Dc Dr C) :
    Fin n → Fin Dr → ℝ :=
  fun i k => S.dec_input_reg i k * msk_input S i

/-- `pred_momentum = momentum_mult * (concat per-component ffn outputs *
msk_input)` (model.py:880-886, `separate_momentum` path). -/
noncomputable def pred_momentum {n F Dc Dr C : ℕ} (S : PFNetDenseStage n F Dc Dr C) :
    Fin n → Fin 5 → ℝ :=
  fun i m => S.momentum_mult m * (S.ffn_momentum m (dec_output_reg S i) * msk_input S i)

/-- `pt = exp(clip_by_value(pred_momentum[..., 0:1], -6, 8))` (model.py:893). -/
noncomputable def out_pt {n F Dc Dr C : ℕ} (S : PFNetDenseStage n F Dc Dr C) :
    Fin n → ℝ :=
  fun i => Real.exp (clip_by_value (pred_momentum S i 0) (-6) 8)

/-- `eta = pred_momentum[..., 1:2]` (model.py:894). -/
noncomputable def out_eta {n F Dc Dr C : ℕ} (S : PFNetDenseStage n F Dc Dr C) :
    Fin n → ℝ :=
  fun i => pred_momentum S i 1

/-- `sin_phi = pred_momentum[..., 2:3]` (model.py:895). -/
noncomputable def out_sin_phi {n F Dc Dr C : ℕ} (S : PFNetDenseStage n F Dc Dr C) :
    Fin n → ℝ :=
  fun i => pred_momentum S i 2

/-- `cos_phi = pred_momentum[..., 3:4]` (model.py:896). -/
noncomputable def out_cos_phi {n F Dc Dr C : ℕ} (S : PFNetDenseStage n F Dc Dr C) :
    Fin n → ℝ :=
  fun i => pred_momentum S i 3

/-- `energy = exp(clip_by_value(pred_momentum[..., 4:5], -6, 8))`
(model.py:897). -/
noncomputable def out_energy {n F Dc Dr C : ℕ} (S : PFNetDenseStage n F Dc Dr C) :
    Fin n → ℝ :=
  fun i => Real.exp (clip_by_value (pred_momentum S i 4) (-6) 8)

/-- The output stage of `PFNet.call` (model.py:618-666), abstracted the same
way: `to_decode_id` / `to_decode_reg` stand for the concatenated decoder
inputs (not mask-multiplied in this model), and the `layer_*` fields stand
for the head networks. -/
structure PFNetStage (n F Dc Dr C : ℕ) where
  X : Fin n → Fin (F + 1) → ℝ
  layer_id : (Fin Dc → ℝ) → Fin C → ℝ
  layer_charge : (Fin Dc → ℝ) → ℝ
  layer_momentum : (Fin Dr → ℝ) → Fin 5 → ℝ
  to_decode_id : Fin n → Fin Dc → ℝ
  to_decode_reg : Fin n → Fin Dr → ℝ

/-- `msk_input` of `PFNet.call` (model.py:620). -/
noncomputable def pfnet_msk_input {n F Dc Dr C : ℕ} (T : PFNetStage n F Dc Dr C) :
    Fin n → ℝ :=
  fun i => if T.X i 0 = 0 then 0 else 1

/-- `out_id_logits = layer_id(to_decode) * msk_input` (model.py:635). -/
noncomputable def pfnet_out_id_logits {n F Dc Dr C : ℕ} (T : PFNetStage n F Dc Dr C) :
    Fin n → Fin C → ℝ :=
  fun i c => T.layer_id (T.to_decode_id i) c * pfnet_msk_input T i

/-- `out_id_softmax = clip_by_value(softmax(out_id_logits), 0, 1)`
(model.py:648). -/
noncomputable def pfnet_out_id_softmax {n F Dc Dr C : ℕ} (T : PFNetStage n F Dc Dr C) :
    Fin n → Fin C → ℝ :=
  fun i c => clip_by_value (softmax C (pfnet_out_id_logits T i) c) 0 1

/-- `out_charge = clip_by_value(layer_charge(to_decode) * msk_input, -2, 2)`
(model.py:636,649). -/
noncomputable def pfnet_out_charge {n F Dc Dr C : ℕ} (T : PFNetStage n F Dc Dr C) :
    Fin n → ℝ :=
  fun i => clip_by_value (T.layer_charge (T.to_decode_id i) * pfnet_msk_input T i) (-2) 2

/-- `pred_momentum = layer_momentum(to_decode) * msk_input` (model.py:646). -/
noncomputable def pfnet_pred_momentum {n F Dc Dr C : ℕ} (T : PFNetStage n F Dc Dr C) :
    Fin n → Fin 5 → ℝ :=
  fun i m => T.layer_momentum (T.to_decode_reg i) m * pfnet_msk_input T i

/-- `pt = exp(clip_by_value(pred_momentum[:, :, 0:1], -4, 4))` (model.py:655). -/
noncomputable def pfnet_out_pt {n F Dc Dr C : ℕ} (T : PFNetStage n F Dc Dr C) :
    Fin n → ℝ :=
  fun i => Real.exp (clip_by_value (pfnet_pred_momentum T i 0) (-4) 4)

/-- `eta = pred_momentum[:, :, 1:2]` (model.py:656). -/
noncomputable def pfnet_out_eta {n F Dc Dr C : ℕ} (T : PFNetStage n F Dc Dr C) :
    Fin n → ℝ :=
  fun i => pfnet_pred_momentum T i 1

/-- `sin_phi = pred_momentum[:, :, 2:3]` (model.py:657). -/
noncomputable def pfnet_out_sin_phi {n F Dc Dr C : ℕ} (T : PFNetStage n F Dc Dr C) :
    Fin n → ℝ :=
  fun i => pfnet_pred_momentum T i 2

/-- `cos_phi = pred_momentum[:, :, 3:4]` (model.py:658). -/
noncomputable def pfnet_out_cos_phi {n F Dc Dr C : ℕ} (T : PFNetStage n F Dc Dr C) :
    Fin n → ℝ :=
  fun i => pfnet_pred_momentum T i 3

/-- `energy = exp(clip_by_value(pred_momentum[:, :, 4:5], -5, 6))`
(model.py:659). -/
noncomputable def pfnet_out_energy {n F Dc Dr C : ℕ} (T : PFNetStage n F Dc Dr C) :
    Fin n → ℝ :=
  fun i => Real.exp (clip_by_value (pfnet_pred_momentum T i 4) (-5) 6)

/-- Helper: clipping a value already inside the clip range is the identity. -/
lemma clip_by_value_eq_self {x lo hi : ℝ} (h1 : lo ≤ x) (h2 : x ≤ hi) :
    clip_by_value x lo hi = x := by
  unfold clip_by_value
  rw [max_eq_left h1, min_eq_left h2]

/-- Helper: the softmax of an all-zero logit vector is uniform `1 / C`. -/
lemma softmax_zero (C : ℕ) (v : Fin C → ℝ) (hv : ∀ c, v c = 0) (c : Fin C) :
    softmax C v c = 1 / C := by
  unfold softmax
  have hsum : (∑ b, Real.exp (v b)) = C := by
    rw [Finset.sum_congr rfl (fun b _ => by rw [hv b, Real.exp_zero]),
      Finset.sum_const, Finset.card_univ, Fintype.card_fin, nsmul_eq_mul, mul_one]
  rw [hv c, Real.exp_zero, hsum]

/-- A concrete fully-masked 1-element instance of the `PFNetDense` output
stage with all head networks zero and unit momentum multiplier. -/
noncomputable def pfdS0 : PFNetDenseStage 1 0 1 1 2 where
  X := fun _ _ => 0
  ffn_id := fun _ _ => 0
  ffn_charge := fun _ => 0
  ffn_momentum := fun _ _ => 0
  momentum_mult := fun _ => 1
  dec_input_id := fun _ _ => 0
  dec_input_reg := fun _ _ => 0

/-- C1 counterexample: at a masked element (`X[b, i, 0] = 0`) the `pt` output
of `PFNetDense.call` is `exp(clip(0, -6, 8)) = 1`, not zero, so not every
named output field is zero at masked positions. -/
theorem masked_element_pt_not_zero :
    pfdS0.X 0 0 = 0 ∧ out_pt pfdS0 0 = 1 ∧ out_pt pfdS0 0 ≠ 0 := by
  have hm : msk_input pfdS0 0 = 0 := by simp [msk_input, pfdS0]
  have hp : pred_momentum pfdS0 0 0 = 0 := by simp [pred_momentum, hm]
  have h1 : out_pt pfdS0 0 = 1 := by
    unfold out_pt
    rw [hp, clip_by_value_eq_self (by norm_num) (by norm_num), Real.exp_zero]
  exact ⟨rfl, h1, by rw [h1]; norm_num⟩

/-- C1 amended: at every masked element (`X[b, i, 0] = 0`) of the top-level
models, the charge, eta, sin_phi, cos_phi outputs and the pre-softmax logits
are exactly zero; the class-probability output is not zero but the uniform
softmax value `1 / C`, and the pt and energy outputs are not zero but
`exp(clip(0)) = 1`, for both `PFNetDense.call` and `PFNet.call`. -/
theorem masked_element_outputs {n F Dc Dr C : ℕ} (hC : 0 < C)
    (S : PFNetDenseStage n F Dc Dr C) (T : PFNetStage n F Dc Dr C) (i : Fin n)
    (hS : S.X i 0 = 0) (hT : T.X i 0 = 0) :
    out_charge S i = 0 ∧ out_eta S i = 0 ∧ out_sin_phi S i = 0 ∧
    out_cos_phi S i = 0 ∧ (∀ c, out_id_logits S i c = 0) ∧
    (∀ c, out_id_softmax S i c = 1 / C) ∧ out_pt S i = 1 ∧ out_energy S i = 1 ∧
    pfnet_out_charge T i = 0 ∧ pfnet_out_eta T i = 0 ∧
    pfnet_out_sin_phi T i = 0 ∧ pfnet_out_cos_phi T i = 0 ∧
    (∀ c, pfnet_out_id_logits T i c = 0) ∧
    (∀ c, pfnet_out_id_softmax T i c = 1 / C) ∧
    pfnet_out_pt T i = 1 ∧ pfnet_out_energy T i = 1 := by
  have hmS : msk_input S i = 0 := by simp [msk_input, hS]
  have hmT : pfnet_msk_input T i = 0 := by simp [pfnet_msk_input, hT]
  have hlogS : ∀ c, out_id_logits S i c = 0 := fun c => by
    simp [out_id_logits, hmS]
  have hlogT : ∀ c, pfnet_out_id_logits T i c = 0 := fun c => by
    simp [pfnet_out_id_logits, hmT]
  have hmomS : ∀ m, pred_momentum S i m = 0 := fun m => by
    simp [pred_momentum, hmS]
  have hmomT : ∀ m, pfnet_pred_momentum T i m = 0 := fun m => by
    simp [pfnet_pred_momentum, hmT]
  have h1C0 : (0 : ℝ) ≤ 1 / C := by positivity
  have h1C1 : (1 : ℝ) / C ≤ 1 := by
    rw [div_le_one (by exact_mod_cast hC)]
    exact_mod_cast hC
  refine ⟨?_, hmomS 1, hmomS 2, hmomS 3, hlogS, ?_, ?_, ?_,
    ?_, hmomT 1, hmomT 2, hmomT 3, hlogT, ?_, ?_, ?_⟩
  · unfold out_charge
    rw [hmS, mul_zero, clip_by_value_eq_self (by norm_num) (by norm_num)]
  · intro c
    unfold out_id_softmax
    rw [softmax_zero C _ hlogS c, clip_by_value_eq_self h1C0 h1C1]
  · unfold out_pt
    rw [hmomS 0, clip_by_value_eq_self (by norm_num) (by norm_num), Real.exp_zero]
  · unfold out_energy
    rw [hmomS 4, clip_by_value_eq_self (by norm_num) (by norm_num), Real.exp_zero]
  · unfold pfnet_out_charge
    rw [hmT, mul_zero, clip_by_value_eq_self (by norm_num) (by norm_num)]
  · intro c
    unfold pfnet_out_id_softmax
    rw [softmax_zero C _ hlogT c, clip_by_value_eq_self h1C0 h1C1]
  · unfold pfnet_out_pt
    rw [hmomT 0, clip_by_value_eq_self (by norm_num) (by norm_num), Real.exp_zero]
  · unfold pfnet_out_energy
    rw [hmomT 4, clip_by_value_eq_self (by norm_num) (by norm_num), Real.exp_zero]

/-- A concrete fully-masked 1-element instance of the `PFNet` output stage. -/
noncomputable def pfnT0 : PFNetStage 1 0 1 1 2 where
  X := fun _ _ => 0
  layer_id := fun _ _ => 0
  layer_charge := fun _ => 0
  layer_momentum := fun _ _ => 0
  to_decode_id := fun _ _ => 0
  to_decode_reg := fun _ _ => 0

/-- Witness for the amended C1 at the concrete fully-masked instances. -/
theorem masked_element_outputs_witness :
    out_charge pfdS0 0 = 0 ∧ (∀ c, out_id_softmax pfdS0 0 c = 1 / 2) ∧
    out_pt pfdS0 0 = 1 ∧ pfnet_out_charge pfnT0 0 = 0 ∧
    pfnet_out_energy pfnT0 0 = 1 := by
  obtain ⟨h1, _, _, _, _, h6, h7, _, h9, _, _, _, _, _, _, h16⟩ :=
    masked_element_outputs (by norm_num) pfdS0 pfnT0 0 rfl rfl
  refine ⟨h1, fun c => ?_, h7, h9, h16⟩
  rw [h6 c]
  norm_num

/-- Helper: exponentiating a clipped value gives a positive result bounded by
the exponentials of the clip range. -/
lemma exp_clip_bounds (x lo hi : ℝ) (h : lo ≤ hi) :
    0 < Real.exp (clip_by_value x lo hi) ∧
    Real.exp lo ≤ Real.exp (clip_by_value x lo hi) ∧
    Real.exp (clip_by_value x lo hi) ≤ Real.exp hi := by
  have h1 : lo ≤ clip_by_value x lo hi := by
    unfold clip_by_value
    exact le_min (le_max_right x lo) h
  have h2 : clip_by_value x lo hi ≤ hi := by
    unfold clip_by_value
    exact min_le_right _ _
  exact ⟨Real.exp_pos _, Real.exp_le_exp.mpr h1, Real.exp_le_exp.mpr h2⟩

/-- C6: for every value of the regression pre-activations, the pt and energy
outputs of `PFNetDense.call` lie in `[exp(-6), exp(8)]` and those of
`PFNet.call` lie in `[exp(-4), exp(4)]` and `[exp(-5), exp(6)]` respectively;
in particular all are strictly positive and finite. -/
theorem momentum_outputs_positive_bounded {n F Dc Dr C : ℕ}
    (S : PFNetDenseStage n F Dc Dr C) (T : PFNetStage n F Dc Dr C) (i : Fin n) :
    (0 < out_pt S i ∧ Real.exp (-6) ≤ out_pt S i ∧ out_pt S i ≤ Real.exp 8) ∧
    (0 < out_energy S i ∧ Real.exp (-6) ≤ out_energy S i ∧
      out_energy S i ≤ Real.exp 8) ∧
    (0 < pfnet_out_pt T i ∧ Real.exp (-4) ≤ pfnet_out_pt T i ∧
      pfnet_out_pt T i ≤ Real.exp 4) ∧
    (0 < pfnet_out_energy T i ∧ Real.exp (-5) ≤ pfnet_out_energy T i ∧
      pfnet_out_energy T i ≤ Real.exp 6) := by
  refine ⟨?_, ?_, ?_, ?_⟩
  · exact exp_clip_bounds (pred_momentum S i 0) (-6) 8 (by norm_num)
  · exact exp_clip_bounds (pred_momentum S i 4) (-6) 8 (by norm_num)
  · exact exp_clip_bounds (pfnet_pred_momentum T i 0) (-4) 4 (by norm_num)
  · exact exp_clip_bounds (pfnet_pred_momentum T i 4) (-5) 6 (by norm_num)
